import Mathlib

/-!
Verification of the windowing / aggregation core of `audiobox_aesthetics`
(`src/audiobox_aesthetics/infer.py`), shallowly embedded in Lean 4.
Waveform samples, weights and scores are modelled as rationals; the
floating-point division `x / 0` performed by the aggregation step (which
yields `NaN`/`inf` rather than a number) is modelled as `Option.none`.
-/

namespace AudioboxAesthetics

/-- Python `range(0, stop, step)` with positive `step`: the multiples of
`step` below `stop`, in increasing order.  This is the iteration space of
the `for ii in range(0, wav.shape[-1], offset)` loop of
`make_inference_batch`. -/
def pyRange (stop step : ℕ) : List ℕ :=
  (List.range stop).filter (fun i => i % step == 0)

/-- One window produced by `make_inference_batch`: the (possibly padded)
sample slice `wav_ii`, its validity mask `mask_ii`, its weight
`wav_ii_len / winlen`, and the id `bid` of the clip it came from.  The
source pushes these four components onto four parallel lists; they are
modelled here as one list of records. -/
structure Window where
  samples : List ℚ
  mask : List Bool
  weight : ℚ
  bid : ℕ
deriving DecidableEq, Repr

/-- Body of the inner loop of `make_inference_batch` at start offset `ii`:
`wav_ii = wav[..., ii : ii + winlen]`; if the slice is short and `pad_zero`
is set it is right-padded with zeros to `winlen`; the mask is `True` on the
first `wav_ii_len` samples and `False` on the padding; the weight is
`wav_ii_len / winlen`. -/
def makeWindow (wav : List ℚ) (ii winlen : ℕ) (pad_zero : Bool) (bid : ℕ) : Window :=
  let wav_ii := (wav.drop ii).take winlen
  let wav_ii_len := wav_ii.length
  let padded :=
    if wav_ii_len < winlen ∧ pad_zero = true then
      wav_ii ++ List.replicate (winlen - wav_ii_len) 0
    else wav_ii
  { samples := padded
    mask := List.replicate wav_ii_len true ++ List.replicate (padded.length - wav_ii_len) false
    weight := (wav_ii_len : ℚ) / (winlen : ℚ)
    bid := bid }

/-- `make_inference_batch(input_wavs, hop_size, window_size, sample_rate, pad_zero)`:
for each clip (`bid`, via `enumerate`) and each start offset
`ii in range(0, len(wav), hop_size * sample_rate)`, emit the window of
length `window_size * sample_rate` starting at `ii`. -/
def make_inference_batch (input_wavs : List (List ℚ)) (hop_size : ℕ := 10)
    (window_size : ℕ := 10) (sample_rate : ℕ := 16000) (pad_zero : Bool := true) :
    List Window :=
  let offset := hop_size * sample_rate
  let winlen := window_size * sample_rate
  input_wavs.enum.flatMap (fun bw =>
    (pyRange bw.2.length offset).map (fun ii => makeWindow bw.2 ii winlen pad_zero bw.1))

/-- The fixed, ordered axis names `AXES_NAME = ["CE", "CU", "PC", "PQ"]`. -/
def AXES_NAME : List String := ["CE", "CU", "PC", "PQ"]

/-- Modelled from the spec: `Normalize.inverse` lives in
`audiobox_aesthetics/model/aes_wavlm.py`, which is not part of the sources
here; per the spec it de-normalizes a raw score as `score = raw * std + mean`. -/
def normalize_inverse (mean std raw : ℚ) : ℚ := raw * std + mean

/-- Boolean-mask selection `xs[bids == bii]` for two parallel lists:
keep the entries of `xs` whose parallel `bid` equals `bii`. -/
def select (xs : List ℚ) (bids : List ℕ) (bii : ℕ) : List ℚ :=
  ((xs.zip bids).filter (fun p => p.2 == bii)).map Prod.fst

/-- The per-clip aggregation `(preds[bids==bii] * weights_bii).sum() / weights_bii.sum()`
of `forward_versa`.  When the weight sum is zero the float division yields
`NaN` (`0/0`) — no exception is raised; that non-number outcome is modelled
as `none`. -/
def weightedAgg (scores weights : List ℚ) : Option ℚ :=
  if weights.sum = 0 then none
  else some (((scores.zip weights).map (fun p => p.1 * p.2)).sum / weights.sum)

/-- `AesWavlmPredictorMultiOutput.forward_versa`, with the external pieces at
their boundary: resampling has already produced the mono waveforms `wavs`,
the opaque scoring model is `modelRaw` (per axis, one raw score per window,
in window order), and `targetTransform` gives the per-axis `(mean, std)`.
Windows are built by `make_inference_batch(wavs, 10, 10, sample_rate=16000)`
(`pad_zero` defaulting to `True`); per axis the raw scores are de-normalized,
grouped by clip id and weight-averaged; finally the per-axis lists are
transposed into one `(axis, score)` record per clip, in clip order. -/
def forward_versa (wavs : List (List ℚ)) (modelRaw : String → List ℚ)
    (targetTransform : String → ℚ × ℚ) : List (List (String × Option ℚ)) :=
  let bsz := wavs.length
  let windows := make_inference_batch wavs 10 10 16000 true
  let weights := windows.map (fun w => w.weight)
  let bids := windows.map (fun w => w.bid)
  let all_result : List (String × List (Option ℚ)) :=
    AXES_NAME.map (fun axis =>
      let preds := (modelRaw axis).map (fun r =>
        normalize_inverse (targetTransform axis).1 (targetTransform axis).2 r)
      (axis, (List.range bsz).map (fun bii =>
        weightedAgg (select preds bids bii) (select weights bids bii))))
  (List.range bsz).map (fun bii => all_result.map (fun p => (p.1, p.2.getD bii none)))

/-- The attribute names bound on `AesWavlmPredictorMultiOutput` by its class
body: the user-defined `__init__` (line 88) and the methods `setup_model`
(105), `audio_resample_mono` (152), `audio_resample_mono_versa` (171) and
`forward_versa` (181).  No method named `forward` is defined. -/
def predictor_method_names : List String :=
  ["__init__", "setup_model", "audio_resample_mono", "audio_resample_mono_versa",
    "forward_versa"]

/-- The parameter names of the user-defined `__init__` of
`AesWavlmPredictorMultiOutput` (line 88); the explicit `__init__` suppresses
the dataclass-generated constructor, so these are the only keywords the
constructor accepts. -/
def predictor_init_param_names : List String :=
  ["self", "checkpoint_pth", "precision", "batch_size", "device"]

/-- The keyword arguments `initialize_model` passes to the constructor
(line 233): `AesWavlmPredictorMultiOutput(checkpoint_pth=ckpt, data_col="path")`. -/
def initialize_model_kwarg_names : List String := ["checkpoint_pth", "data_col"]

/-- The method name `main_predict`'s chunk loop dispatches on the predictor
(line 248): `predictor.forward(metadata[ii : ii + batch_size])`. -/
def main_predict_dispatch : String := "forward"

/-- The torch dtypes that `AesWavlmPredictorMultiOutput` can be configured
with. -/
inductive DType
  | float16
  | bfloat16
  | float32
deriving DecidableEq, Repr

/-- The `__init__` dtype lookup
`{"16": float16, "bf16": bfloat16}.get(self.precision, torch.float32)`:
a `dict.get` with a `float32` default. -/
def initDtype (precision : String) : DType :=
  if precision = "16" then DType.float16
  else if precision = "bf16" then DType.bfloat16
  else DType.float32

/-- `__init__` logs the warning `"Precision ... is not supported, using
float32 instead."` exactly when the lookup fell through to `float32`. -/
def initWarns (precision : String) : Bool :=
  decide (initDtype precision = DType.float32)

/-- The `setup_model` dtype lookup
`{"16": float16, "bf16": bfloat16}.get(self.precision)`: a `dict.get`
with no default, so an unsupported precision yields Python `None`
(modelled as `Option.none`). -/
def setupDtype (precision : String) : Option DType :=
  if precision = "16" then some DType.float16
  else if precision = "bf16" then some DType.bfloat16
  else none

/-- Constructing the predictor: `__init__` sets `self.dtype` with the
`float32` fallback (warning on fallback), then calls `setup_model`, which
overwrites `self.dtype` with the no-default lookup.  The result is the
final `dtype` together with whether the warning was logged. -/
def initPredictor (precision : String) : Option DType × Bool :=
  (setupDtype precision, initWarns precision)

/-! ### Helper lemmas about `pyRange` -/

lemma mem_pyRange {i stop step : ℕ} : i ∈ pyRange stop step ↔ i < stop ∧ i % step = 0 := by
  simp [pyRange, List.mem_filter, List.mem_range]

lemma pyRange_eq_map (step : ℕ) (hstep : 0 < step) (stop : ℕ) :
    pyRange stop step = (List.range ((stop + step - 1) / step)).map (fun k => k * step) := by
  induction stop with
  | zero =>
    have h0 : (step - 1) / step = 0 := Nat.div_eq_of_lt (by omega)
    simp [pyRange, h0]
  | succ n ih =>
    rw [pyRange] at ih ⊢
    rw [List.range_succ, List.filter_append, ih]
    by_cases hdvd : step ∣ n
    · obtain ⟨k, rfl⟩ := hdvd
      have hfilter : List.filter (fun i => i % step == 0) [step * k] = [step * k] := by
        simp [Nat.mul_mod_right]
      have hm : (step * k + step - 1) / step = k := by
        apply Nat.div_eq_of_lt_le
        · rw [Nat.mul_comm]; omega
        · rw [Nat.add_mul, Nat.one_mul, Nat.mul_comm]; omega
      have hm1 : (step * k + 1 + step - 1) / step = k + 1 := by
        have he : step * k + 1 + step - 1 = k * step + step := by rw [Nat.mul_comm]; omega
        rw [he, Nat.add_div_right _ hstep, Nat.mul_div_cancel _ hstep]
      rw [hfilter, hm, hm1, List.range_succ, List.map_append]
      simp [Nat.mul_comm]
    · have hmod : ¬ (n % step = 0) := fun h => hdvd (Nat.dvd_of_mod_eq_zero h)
      have hfilter : List.filter (fun i => i % step == 0) [n] = [] := by
        simp [hmod]
      have hnd : ¬ step ∣ ((n + step - 1) + 1) := by
        intro hc
        have he2 : n + step - 1 + 1 = n + step := by omega
        rw [he2] at hc
        exact hdvd (by simpa using Nat.dvd_sub' hc (dvd_refl step))
      have hm : (n + 1 + step - 1) / step = (n + step - 1) / step := by
        have he : n + 1 + step - 1 = (n + step - 1) + 1 := by omega
        rw [he, Nat.succ_div_of_not_dvd hnd]
      rw [hfilter, hm, List.append_nil]

lemma pyRange_length (step : ℕ) (hstep : 0 < step) (stop : ℕ) :
    (pyRange stop step).length = (stop + step - 1) / step := by
  rw [pyRange_eq_map step hstep stop]
  simp

lemma pyRange_cons (L H : ℕ) (hH : 0 < H) (hL : 0 < L) :
    pyRange L H = 0 :: (pyRange (L - H) H).map (fun i => i + H) := by
  rw [pyRange_eq_map H hH L, pyRange_eq_map H hH (L - H)]
  have h1 : (L + H - 1) / H = (L - H + H - 1) / H + 1 := by
    by_cases hLH : H ≤ L
    · have he : L + H - 1 = (L - H + H - 1) + H := by omega
      rw [he, Nat.add_div_right _ hH]
    · have he1 : L - H = 0 := by omega
      have he2 : (0 + H - 1) / H = 0 := Nat.div_eq_of_lt (by omega)
      rw [he1, he2]
      apply Nat.div_eq_of_lt_le
      · omega
      · omega
  rw [h1, List.range_succ_eq_map, List.map_cons, List.map_map, List.map_map]
  simp [Function.comp, Nat.succ_mul]

/-- Nat-ceiling division: `⌈L / H⌉ = (L + H - 1) / H` for positive `L`, `H`. -/
lemma ceil_cast_div (L H : ℕ) (hH : 0 < H) (hL : 0 < L) :
    ⌈(L : ℚ) / (H : ℚ)⌉₊ = (L + H - 1) / H := by
  have hn1 : (L + H - 1) / H = (L - 1) / H + 1 := by
    have he : L + H - 1 = (L - 1) + H := by omega
    rw [he, Nat.add_div_right _ hH]
  have hn0 : (L + H - 1) / H ≠ 0 := by rw [hn1]; exact Nat.succ_ne_zero _
  have hHQ : (0 : ℚ) < (H : ℚ) := by exact_mod_cast hH
  rw [Nat.ceil_eq_iff hn0]
  constructor
  · rw [hn1, Nat.add_sub_cancel, lt_div_iff₀ hHQ]
    have hnat : (L - 1) / H * H < L :=
      lt_of_le_of_lt (Nat.div_mul_le_self (L - 1) H) (by omega)
    exact_mod_cast hnat
  · rw [div_le_iff₀ hHQ]
    have hq := Nat.div_add_mod (L - 1) H
    have hr := Nat.mod_lt (L - 1) hH
    have hnat : L ≤ (L + H - 1) / H * H := by
      rw [hn1, Nat.add_mul, Nat.one_mul, Nat.mul_comm]
      omega
    exact_mod_cast hnat

/-! ### Per-window facts -/

lemma makeWindow_weight (wav : List ℚ) (ii winlen : ℕ) (pad_zero : Bool) (bid : ℕ) :
    (makeWindow wav ii winlen pad_zero bid).weight
      = (((wav.drop ii).take winlen).length : ℚ) / (winlen : ℚ) := rfl

lemma makeWindow_bid (wav : List ℚ) (ii winlen : ℕ) (pad_zero : Bool) (bid : ℕ) :
    (makeWindow wav ii winlen pad_zero bid).bid = bid := rfl

lemma makeWindow_mask_count (wav : List ℚ) (ii winlen : ℕ) (pad_zero : Bool) (bid : ℕ) :
    (makeWindow wav ii winlen pad_zero bid).mask.count true
      = ((wav.drop ii).take winlen).length := by
  simp [makeWindow, List.count_append, List.count_replicate]

/-! ### Claim theorems -/

/-- Claim C2, counterexample: an empty waveform with zero-padding enabled does
NOT yield one all-padding window of weight 0 — `range(0, 0, offset)` is empty,
so the segmenter yields no window at all. -/
theorem claim2_counterexample :
    make_inference_batch [([] : List ℚ)] 10 10 16000 true = [] ∧
    (make_inference_batch [([] : List ℚ)] 10 10 16000 true).length ≠ 1 :=
  ⟨rfl, by decide⟩

/-- Claim C2, amended: for an empty input waveform the window segmenter yields
no windows at all, whether zero-padding is enabled or not. -/
theorem claim2_empty_wav_no_windows (hop_size window_size sample_rate : ℕ)
    (pad_zero : Bool) :
    make_inference_batch [([] : List ℚ)] hop_size window_size sample_rate pad_zero = [] := rfl

/-- Claim C4: a non-empty waveform of sample length `L` produces exactly
`ceil(L / hop)` windows, where `hop = hop_size * sample_rate` samples. -/
theorem claim4_window_count (wav : List ℚ) (hop_size window_size sample_rate : ℕ)
    (pad_zero : Bool) (hL : 0 < wav.length) (hH : 0 < hop_size * sample_rate) :
    (make_inference_batch [wav] hop_size window_size sample_rate pad_zero).length
      = ⌈(wav.length : ℚ) / ((hop_size * sample_rate : ℕ) : ℚ)⌉₊ := by
  rw [ceil_cast_div _ _ hH hL]
  simp [make_inference_batch, List.enum, List.enumFrom, pyRange_length _ hH]

theorem claim4_witness :
    (make_inference_batch [[(1:ℚ), 2, 3]] 1 1 2 true).length
      = ⌈(([(1:ℚ), 2, 3].length : ℕ) : ℚ) / ((1 * 2 : ℕ) : ℚ)⌉₊ :=
  claim4_window_count [(1:ℚ), 2, 3] 1 1 2 true (by decide) (by decide)

/-- Claim C5: every window produced by the segmenter has `0 < weight ≤ 1`,
and `weight = 1` iff its real-sample count (the `True` entries of its mask)
equals the full window length `window_size * sample_rate`. -/
theorem claim5_weight_bound (input_wavs : List (List ℚ))
    (hop_size window_size sample_rate : ℕ) (pad_zero : Bool) (w : Window)
    (hwin : 0 < window_size * sample_rate)
    (hw : w ∈ make_inference_batch input_wavs hop_size window_size sample_rate pad_zero) :
    0 < w.weight ∧ w.weight ≤ 1 ∧
      (w.weight = 1 ↔ w.mask.count true = window_size * sample_rate) := by
  simp only [make_inference_batch, List.mem_flatMap, List.mem_map] at hw
  obtain ⟨bw, hbw, ii, hii, rfl⟩ := hw
  have hiilt : ii < bw.2.length := (mem_pyRange.mp hii).1
  have hlen : ((bw.2.drop ii).take (window_size * sample_rate)).length
      = min (window_size * sample_rate) (bw.2.length - ii) := by simp
  rw [makeWindow_weight, makeWindow_mask_count]
  have hposn : 0 < ((bw.2.drop ii).take (window_size * sample_rate)).length := by omega
  have hle : ((bw.2.drop ii).take (window_size * sample_rate)).length
      ≤ window_size * sample_rate := by omega
  have hwinQ : (0:ℚ) < ((window_size * sample_rate : ℕ) : ℚ) := by exact_mod_cast hwin
  refine ⟨div_pos (by exact_mod_cast hposn) hwinQ, ?_, ?_⟩
  · rw [div_le_one hwinQ]
    exact_mod_cast hle
  · rw [div_eq_one_iff_eq (ne_of_gt hwinQ)]
    exact Nat.cast_inj

theorem claim5_witness :
    0 < ((1:ℚ)/2) ∧ ((1:ℚ)/2) ≤ 1 ∧
      (((1:ℚ)/2) = 1 ↔ ([true, false].count true = 1 * 2)) :=
  claim5_weight_bound [[(1:ℚ), 2, 3]] 1 1 2 true
    ⟨[(3:ℚ), 0], [true, false], 1/2, 0⟩ (by decide)
    (by
      have hpy : pyRange 3 2 = [0, 2] := by decide
      have heq : make_inference_batch [[(1:ℚ), 2, 3]] 1 1 2 true
          = [⟨[1, 2], [true, true], 1, 0⟩, ⟨[3, 0], [true, false], 1/2, 0⟩] := by
        simp [make_inference_batch, List.enum, List.enumFrom, hpy, makeWindow]
        norm_num
      rw [heq]
      exact List.Mem.tail _ (List.Mem.head _))

/-- Claim C6, counterexample: with hop `H = 2` larger than window `W = 1`, the
windows `[i, i+W)` for starts `i ∈ range(0, L, H)` do NOT cover `[0, L)`:
for `L = 3` the sample at index `1` falls in no window. -/
theorem claim6_counterexample :
    ¬ (∀ j, j < 3 → ∃ i ∈ pyRange 3 2, i ≤ j ∧ j < i + 1) := by decide

/-- Claim C6, amended: whenever the hop does not exceed the window length
(`H ≤ W`, as with the defaults `hop = window = 10 s`), every sample index
`j < L` is covered by the window starting at some `i ∈ range(0, L, H)`. -/
theorem claim6_coverage (L H W j : ℕ) (hH : 0 < H) (hHW : H ≤ W) (hj : j < L) :
    ∃ i ∈ pyRange L H, i ≤ j ∧ j < i + W := by
  have hdm := Nat.div_add_mod j H
  have hmlt : j % H < H := Nat.mod_lt j hH
  exact ⟨H * (j / H), mem_pyRange.mpr ⟨by omega, Nat.mul_mod_right H (j / H)⟩,
    by omega, by omega⟩

theorem claim6_witness : ∃ i ∈ pyRange 3 2, i ≤ 1 ∧ 1 < i + 2 :=
  claim6_coverage 3 2 2 1 (by decide) (by decide) (by decide)

/-! ### Weighted-mean convexity (C7) -/

lemma dot_le_of_le : ∀ (scores weights : List ℚ) (b : ℚ),
    scores.length = weights.length →
    (∀ w ∈ weights, 0 ≤ w) → (∀ s ∈ scores, s ≤ b) →
    ((scores.zip weights).map (fun p => p.1 * p.2)).sum ≤ b * weights.sum
  | [], [], _, _, _, _ => by simp
  | [], _ :: _, _, hlen, _, _ => by simp at hlen
  | _ :: _, [], _, hlen, _, _ => by simp at hlen
  | s :: st, w :: wt, b, hlen, hw, hb => by
    have h1 : s * w ≤ b * w :=
      mul_le_mul_of_nonneg_right (hb s (List.mem_cons_self s st))
        (hw w (List.mem_cons_self w wt))
    have h2 := dot_le_of_le st wt b (by simpa using hlen)
      (fun x hx => hw x (List.mem_cons_of_mem _ hx))
      (fun x hx => hb x (List.mem_cons_of_mem _ hx))
    simp only [List.zip_cons_cons, List.map_cons, List.sum_cons]
    rw [mul_add]
    exact add_le_add h1 h2

lemma le_dot_of_ge : ∀ (scores weights : List ℚ) (b : ℚ),
    scores.length = weights.length →
    (∀ w ∈ weights, 0 ≤ w) → (∀ s ∈ scores, b ≤ s) →
    b * weights.sum ≤ ((scores.zip weights).map (fun p => p.1 * p.2)).sum
  | [], [], _, _, _, _ => by simp
  | [], _ :: _, _, hlen, _, _ => by simp at hlen
  | _ :: _, [], _, hlen, _, _ => by simp at hlen
  | s :: st, w :: wt, b, hlen, hw, hb => by
    have h1 : b * w ≤ s * w :=
      mul_le_mul_of_nonneg_right (hb s (List.mem_cons_self s st))
        (hw w (List.mem_cons_self w wt))
    have h2 := le_dot_of_ge st wt b (by simpa using hlen)
      (fun x hx => hw x (List.mem_cons_of_mem _ hx))
      (fun x hx => hb x (List.mem_cons_of_mem _ hx))
    simp only [List.zip_cons_cons, List.map_cons, List.sum_cons]
    rw [mul_add]
    exact add_le_add h1 h2

lemma foldr_min_le (l : List ℚ) (d : ℚ) :
    l.foldr min d ≤ d ∧ ∀ x ∈ l, l.foldr min d ≤ x := by
  induction l with
  | nil => exact ⟨le_refl d, by simp⟩
  | cons a t ih =>
    refine ⟨le_trans (min_le_right a _) ih.1, ?_⟩
    intro x hx
    rcases List.mem_cons.mp hx with rfl | hx
    · exact min_le_left _ _
    · exact le_trans (min_le_right a _) (ih.2 x hx)

lemma le_foldr_max (l : List ℚ) (d : ℚ) :
    d ≤ l.foldr max d ∧ ∀ x ∈ l, x ≤ l.foldr max d := by
  induction l with
  | nil => exact ⟨le_refl d, by simp⟩
  | cons a t ih =>
    refine ⟨le_trans ih.1 (le_max_right a _), ?_⟩
    intro x hx
    rcases List.mem_cons.mp hx with rfl | hx
    · exact le_max_left _ _
    · exact le_trans (ih.2 x hx) (le_max_right a _)

/-- Claim C7: for a clip with a positive weight sum and non-negative window
weights, the aggregated score of `forward_versa`'s per-clip aggregation
(`weightedAgg`) exists and lies between the minimum and maximum window score
(the weighted mean is a convex combination). -/
theorem claim7_convex (s0 : ℚ) (srest : List ℚ) (weights : List ℚ)
    (hlen : (s0 :: srest).length = weights.length)
    (hw : ∀ w ∈ weights, 0 ≤ w) (hpos : 0 < weights.sum) :
    ∃ q, weightedAgg (s0 :: srest) weights = some q ∧
      srest.foldr min s0 ≤ q ∧ q ≤ srest.foldr max s0 := by
  have hne : weights.sum ≠ 0 := ne_of_gt hpos
  refine ⟨((((s0 :: srest).zip weights).map (fun p => p.1 * p.2)).sum / weights.sum),
    by simp only [weightedAgg, if_neg hne], ?_, ?_⟩
  · rw [le_div_iff₀ hpos]
    refine le_dot_of_ge (s0 :: srest) weights _ hlen hw ?_
    intro s hs
    rcases List.mem_cons.mp hs with rfl | hs
    · exact (foldr_min_le srest s).1
    · exact (foldr_min_le srest s0).2 s hs
  · rw [div_le_iff₀ hpos]
    refine dot_le_of_le (s0 :: srest) weights _ hlen hw ?_
    intro s hs
    rcases List.mem_cons.mp hs with rfl | hs
    · exact (le_foldr_max srest s).1
    · exact (le_foldr_max srest s0).2 s hs

theorem claim7_witness :
    ∃ q, weightedAgg [(1:ℚ), 3] [1/2, 1/2] = some q ∧
      [(3:ℚ)].foldr min 1 ≤ q ∧ q ≤ [(3:ℚ)].foldr max 1 :=
  claim7_convex 1 [3] [1/2, 1/2] (by decide)
    (by
      intro w hw
      rcases List.mem_cons.mp hw with rfl | hw
      · norm_num
      · simp at hw
        rw [hw]
        norm_num)
    (by norm_num)

/-! ### The aggregation of `forward_versa` (C3) -/

lemma getD_range_map {β : Type} (f : ℕ → β) (n i : ℕ) (d : β) (h : i < n) :
    ((List.range n).map f).getD i d = f i := by
  simp [List.getD_eq_getElem?_getD, List.getElem?_map, List.getElem?_range h]

/-- Row `bii` of the `forward_versa` output holds, for each axis, exactly the
weighted aggregation of that clip's de-normalized scores. -/
lemma forward_versa_lookup (wavs : List (List ℚ)) (modelRaw : String → List ℚ)
    (targetTransform : String → ℚ × ℚ) (bii : ℕ) (axis : String)
    (hbii : bii < wavs.length) (haxis : axis ∈ AXES_NAME) :
    List.lookup axis ((forward_versa wavs modelRaw targetTransform).getD bii []) =
      some (weightedAgg
        (select ((modelRaw axis).map (fun r =>
            normalize_inverse (targetTransform axis).1 (targetTransform axis).2 r))
          ((make_inference_batch wavs 10 10 16000 true).map (fun w => w.bid)) bii)
        (select ((make_inference_batch wavs 10 10 16000 true).map (fun w => w.weight))
          ((make_inference_batch wavs 10 10 16000 true).map (fun w => w.bid)) bii)) := by
  simp only [forward_versa]
  rw [getD_range_map _ _ _ _ hbii, List.map_map]
  simp only [AXES_NAME, List.mem_cons, List.not_mem_nil, or_false] at haxis
  rcases haxis with rfl | rfl | rfl | rfl <;>
    · simp only [AXES_NAME, List.map_cons, List.map_nil, Function.comp]
      simp [List.lookup, List.getElem?_range hbii]

/-- The window weights and clip ids for a single 25-second clip
(`400000 = 25 * 16000` samples) at the `forward_versa` parameters
`hop = window = 10 s`, `sample_rate = 16000`, `pad_zero = True`. -/
lemma mib_25s_weights (wav : List ℚ) (h : wav.length = 400000) :
    (make_inference_batch [wav] 10 10 16000 true).map (fun w => w.weight) = [1, 1, 1/2] ∧
    (make_inference_batch [wav] 10 10 16000 true).map (fun w => w.bid) = [0, 0, 0] := by
  have hpy : pyRange 400000 160000 = [0, 160000, 320000] := by
    rw [pyRange_eq_map 160000 (by norm_num) 400000]
    decide
  refine ⟨?_, ?_⟩
  · simp [make_inference_batch, List.enum, List.enumFrom, h, hpy, List.map_map,
      Function.comp, makeWindow_weight]
    norm_num [Nat.min_def]
  · simp [make_inference_batch, List.enum, List.enumFrom, h, hpy, List.map_map,
      Function.comp, makeWindow_bid]

/-- Claim C3: for every clip and axis the aggregated score of `forward_versa`
is the weighted mean `Σ(score_w * weight_w) / Σ(weight_w)` of the clip's
de-normalized window scores (`score = raw * std + mean`); in particular a
25-second clip at `hop = window = 10 s`, `sample_rate = 16000`,
`pad_zero = True` with de-normalized window scores `[a0, a1, a2]` aggregates
to `(a0 * 1 + a1 * 1 + a2 * 0.5) / (1 + 1 + 0.5)`. -/
theorem claim3_weighted_mean :
    (∀ (wavs : List (List ℚ)) (modelRaw : String → List ℚ)
        (targetTransform : String → ℚ × ℚ) (bii : ℕ) (axis : String),
        bii < wavs.length → axis ∈ AXES_NAME →
        List.lookup axis ((forward_versa wavs modelRaw targetTransform).getD bii []) =
          some (weightedAgg
            (select ((modelRaw axis).map (fun r =>
                normalize_inverse (targetTransform axis).1 (targetTransform axis).2 r))
              ((make_inference_batch wavs 10 10 16000 true).map (fun w => w.bid)) bii)
            (select ((make_inference_batch wavs 10 10 16000 true).map (fun w => w.weight))
              ((make_inference_batch wavs 10 10 16000 true).map (fun w => w.bid)) bii))) ∧
    (∀ (wav : List ℚ) (r0 r1 r2 mean std : ℚ) (modelRaw : String → List ℚ)
        (targetTransform : String → ℚ × ℚ) (axis : String),
        wav.length = 400000 → axis ∈ AXES_NAME →
        modelRaw axis = [r0, r1, r2] → targetTransform axis = (mean, std) →
        List.lookup axis ((forward_versa [wav] modelRaw targetTransform).getD 0 []) =
          some (some (((r0 * std + mean) * 1 + (r1 * std + mean) * 1
              + (r2 * std + mean) * (1/2)) / (1 + 1 + 1/2)))) := by
  constructor
  · intro wavs mr tt bii axis hbii haxis
    exact forward_versa_lookup wavs mr tt bii axis hbii haxis
  · intro wav r0 r1 r2 mean std mr tt axis hlen haxis hmr htt
    rw [forward_versa_lookup [wav] mr tt 0 axis (by simp) haxis]
    obtain ⟨hwt, hbd⟩ := mib_25s_weights wav hlen
    rw [hwt, hbd, hmr, htt]
    simp [select, normalize_inverse, weightedAgg]
    norm_num
    ring_nf

theorem claim3_witness :
    List.lookup "CE" ((forward_versa [List.replicate 400000 (0:ℚ)]
        (fun _ => [1, 2, 3]) (fun _ => (0, 1))).getD 0 []) =
      some (some ((((1:ℚ) * 1 + 0) * 1 + ((2:ℚ) * 1 + 0) * 1
          + ((3:ℚ) * 1 + 0) * (1/2)) / (1 + 1 + 1/2))) :=
  claim3_weighted_mean.2 (List.replicate 400000 0) 1 2 3 0 1
    (fun _ => [1, 2, 3]) (fun _ => (0, 1)) "CE"
    (List.length_replicate 400000 0) (by decide) rfl rfl

/-! ### The pipeline entry point `main_predict` (C8) -/

/-- Claim C8, code-bug exhibit: the pipeline of this source can never emit a
record.  `main_predict` first calls `initialize_model`, which passes the
keyword `data_col` to a constructor that accepts no such parameter (a
`TypeError`), and its chunk loop dispatches the attribute `forward`, which is
not among the predictor's methods (an `AttributeError` — only `forward_versa`
exists).  So the claimed one-record-per-clip emission, ordering and
count-mismatch assert are never reached. -/
theorem claim8_pipeline_broken :
    main_predict_dispatch ∉ predictor_method_names ∧
    "data_col" ∈ initialize_model_kwarg_names ∧
    "data_col" ∉ predictor_init_param_names := by decide

/-! ### Degenerate clips (C1), precision fallback (C9), no-padding mode (C10) -/

lemma pyRange_zero (step : ℕ) : pyRange 0 step = [] := rfl

/-- Claim C1, code-bug exhibit: on a batch holding an empty clip (clip 0) and
a one-sample clip (clip 1), `forward_versa` raises no degenerate-clip error:
it returns a record for the empty clip whose every axis value is the float
division `0/0` (NaN, modelled `none`), while the non-empty clip's positive
weight sum yields a proper score. -/
theorem claim1_nan_not_error :
    ((forward_versa [[], [(0:ℚ)]] (fun _ => [0]) (fun _ => (0, 1))).getD 0 [])
        = [("CE", none), ("CU", none), ("PC", none), ("PQ", none)] ∧
    ((forward_versa [[], [(0:ℚ)]] (fun _ => [0]) (fun _ => (0, 1))).getD 1 [])
        = [("CE", some 0), ("CU", some 0), ("PC", some 0), ("PQ", some 0)] := by
  have h1 : pyRange 1 160000 = [0] := by decide
  constructor <;>
  · simp only [forward_versa]
    rw [getD_range_map _ _ _ _ (by norm_num)]
    simp [AXES_NAME, make_inference_batch, List.enum, List.enumFrom, h1, pyRange_zero,
      makeWindow_weight, makeWindow_bid, select, normalize_inverse, weightedAgg,
      List.getD_eq_getElem?_getD, List.getElem?_map, List.getElem?_range]

/-- Claim C9, code-bug exhibit: with the unsupported precision `"32"` the
constructor is not fatal and the fallback warning is logged, but after
`setup_model`'s no-default `dict.get` the predictor's final `dtype` is `None`,
not the promised `float32`. -/
theorem claim9_dtype_not_float32 :
    initPredictor "32" = (none, true) ∧ (initPredictor "32").1 ≠ some DType.float32 := by
  constructor
  · rfl
  · intro h
    simp [initPredictor, setupDtype] at h

/-- Claim C10: with zero-padding disabled, every emitted window keeps its
un-padded slice `wav[i : i + winlen]` (so a trailing window is shorter than
`winlen`), its mask is all-`True`, and its weight is still
`slice_length / winlen`; consequently one batch can contain windows of
unequal lengths. -/
theorem claim10_no_pad_mode :
    (∀ (input_wavs : List (List ℚ)) (hop_size window_size sample_rate : ℕ) (w : Window),
      w ∈ make_inference_batch input_wavs hop_size window_size sample_rate false →
      w.samples.length ≤ window_size * sample_rate ∧
      w.mask = List.replicate w.samples.length true ∧
      w.weight = (w.samples.length : ℚ) / ((window_size * sample_rate : ℕ) : ℚ) ∧
      ∃ wav ∈ input_wavs, ∃ ii ∈ pyRange wav.length (hop_size * sample_rate),
        w.samples = (wav.drop ii).take (window_size * sample_rate)) ∧
    (∃ w1 ∈ make_inference_batch [[(1:ℚ), 2, 3]] 1 1 2 false,
      ∃ w2 ∈ make_inference_batch [[(1:ℚ), 2, 3]] 1 1 2 false,
        w1.samples.length ≠ w2.samples.length) := by
  constructor
  · intro wavs hs ws sr w hw
    simp only [make_inference_batch, List.mem_flatMap, List.mem_map] at hw
    obtain ⟨bw, hbw, ii, hii, rfl⟩ := hw
    have hsam : (makeWindow bw.2 ii (ws * sr) false bw.1).samples
        = (bw.2.drop ii).take (ws * sr) := by
      simp [makeWindow]
    refine ⟨?_, ?_, ?_, ?_⟩
    · rw [hsam]
      simp only [List.length_take, List.length_drop]
      omega
    · simp [makeWindow]
    · rw [makeWindow_weight, hsam]
    · refine ⟨bw.2, ?_, ii, hii, hsam⟩
      obtain ⟨i, a⟩ := bw
      exact List.getElem?_mem (List.mk_mem_enum_iff_getElem?.mp hbw)
  · have hpy : pyRange 3 2 = [0, 2] := by decide
    have heq : make_inference_batch [[(1:ℚ), 2, 3]] 1 1 2 false
        = [⟨[1, 2], [true, true], 1, 0⟩, ⟨[3], [true], 1/2, 0⟩] := by
      simp [make_inference_batch, List.enum, List.enumFrom, hpy, makeWindow]
      norm_num
    refine ⟨⟨[1, 2], [true, true], 1, 0⟩, ?_, ⟨[3], [true], 1/2, 0⟩, ?_, ?_⟩
    · rw [heq]
      exact List.Mem.head _
    · rw [heq]
      exact List.Mem.tail _ (List.Mem.head _)
    · decide

theorem claim10_witness :
    ([(3:ℚ)].length ≤ 1 * 2) ∧
    ([true] = List.replicate [(3:ℚ)].length true) ∧
    ((1:ℚ)/2 = ([(3:ℚ)].length : ℚ) / ((1 * 2 : ℕ) : ℚ)) ∧
    (∃ wav ∈ [[(1:ℚ), 2, 3]], ∃ ii ∈ pyRange wav.length (1 * 2),
      [(3:ℚ)] = (wav.drop ii).take (1 * 2)) :=
  claim10_no_pad_mode.1 [[(1:ℚ), 2, 3]] 1 1 2 ⟨[3], [true], 1/2, 0⟩
    (by
      have hpy : pyRange 3 2 = [0, 2] := by decide
      have heq : make_inference_batch [[(1:ℚ), 2, 3]] 1 1 2 false
          = [⟨[1, 2], [true, true], 1, 0⟩, ⟨[3], [true], 1/2, 0⟩] := by
        simp [make_inference_batch, List.enum, List.enumFrom, hpy, makeWindow]
        norm_num
      rw [heq]
      exact List.Mem.tail _ (List.Mem.head _))

end AudioboxAesthetics
